import Mathlib

/-!
Verification of the `stonyx-events` pub/sub event bus (`src/main.js`).

The bus keeps two pieces of state: `events`, a JavaScript `Map` from event
names to `Set`s of handler functions, and `registeredEvents`, a `Set` of
event-name strings.  We embed JavaScript's insertion-ordered `Map` as an
association list and its insertion-ordered `Set` as a duplicate-free list
(adding an existing element is a no-op, otherwise the element is appended).
Handler functions are identified by their reference, embedded as a `Nat` id.

Operations that can `throw` return the post-call state together with an
`Option String` (the thrown message) or an `Except String` result, because
JavaScript mutations performed before a throw persist.

`emit` is embedded as a fueled interpreter over a small deep-embedded
language of handler actions (subscribe, unsubscribe, a fully awaited
re-entrant emit, a fully awaited call of another function, and throw),
so that handlers running during an emission can mutate the bus and fail.
The interpreter produces a trace separating the emission's own dispatch
events (handler start / finish, diagnostic reports, phase-B resumptions)
from activity nested inside a handler's own body.
-/

/-- Values passed as `emit` arguments; opaque to the bus, identified by id. -/
abbrev Val := Nat

/-- A JavaScript value given to `setup`: either a string or some non-string. -/
inductive JSVal where
  | str (s : String)
  | other
deriving DecidableEq, Repr

/-- Embeds the check that the value is a string (the typeof test). -/
def JSVal.isStr : JSVal → Bool
  | .str _ => true
  | .other => false

/-- JavaScript `Map.get`: first binding of the key, if any. -/
def mapGet : List (String × List Nat) → String → Option (List Nat)
  | [], _ => none
  | (k', v) :: rest, k => if k' = k then some v else mapGet rest k

/-- JavaScript `Map.has`. -/
def mapHas (m : List (String × List Nat)) (k : String) : Bool :=
  (mapGet m k).isSome

/-- JavaScript `Map.set`: update the existing binding in place, else append a new one. -/
def mapSet : List (String × List Nat) → String → List Nat → List (String × List Nat)
  | [], k, v => [(k, v)]
  | (k', v') :: rest, k, v =>
      if k' = k then (k, v) :: rest else (k', v') :: mapSet rest k v

/-- JavaScript `Set.add` on a set of handler references: no-op if present, else append. -/
def setAdd (l : List Nat) (x : Nat) : List Nat :=
  if x ∈ l then l else l ++ [x]

/-- JavaScript `Set.add` on a set of strings. -/
def setAddStr (l : List String) (x : String) : List String :=
  if x ∈ l then l else l ++ [x]

/-- JavaScript `Set.delete`. -/
def setDel (l : List Nat) (x : Nat) : List Nat :=
  l.erase x

/-- The state of the `Events` instance: the subscriber map `events` and the
registry `registeredEvents` (`src/main.js`, constructor). -/
structure EventsState where
  events : List (String × List Nat)
  registeredEvents : List String
deriving DecidableEq, Repr

/-- A freshly constructed bus: both collections empty. -/
def initialState : EventsState := ⟨[], []⟩

/-- The message thrown by `subscribe`/`once` for an unregistered event. -/
def notRegisteredMsg (event : String) : String :=
  "Event \"" ++ event ++ "\" is not registered. Call setup() first."

/-- The `Events.setup` method (`src/main.js` lines 45-59), on an array argument.  The
loop checks each element's type and registers it; a non-string element makes
the whole call throw, but elements already processed stay registered. -/
def Events.setup (s : EventsState) : List JSVal → EventsState × Option String
  | [] => (s, none)
  | JSVal.str name :: rest =>
      Events.setup
        { events := if mapHas s.events name then s.events else mapSet s.events name []
          registeredEvents := setAddStr s.registeredEvents name } rest
  | JSVal.other :: _ => (s, some "Event names must be strings")

/-- The `Events.subscribe` method (`src/main.js` lines 68-82).  `cbIsFn` embeds
`typeof callback === 'function'`.  On success the returned value is the
unsubscribe token, which closes over the `(event, callback)` pair.  The
`mapGet … = none` case mirrors the `TypeError` JavaScript would raise on
`undefined.add` for a registered event with no map entry. -/
def Events.subscribe (s : EventsState) (event : String) (cb : Nat) (cbIsFn : Bool) :
    EventsState × Except String (String × Nat) :=
  if event ∈ s.registeredEvents then
    if cbIsFn then
      match mapGet s.events event with
      | some subs =>
          ({ s with events := mapSet s.events event (setAdd subs cb) }, .ok (event, cb))
      | none => (s, .error "TypeError")
    else (s, .error "Callback must be a function")
  else (s, .error (notRegisteredMsg event))

/-- The `Events.unsubscribe` method (`src/main.js` lines 113-120): silent no-op when the
event has no entry, otherwise deletes the callback from its set. -/
def Events.unsubscribe (s : EventsState) (event : String) (cb : Nat) : EventsState :=
  match mapGet s.events event with
  | none => s
  | some subs => { s with events := mapSet s.events event (setDel subs cb) }

/-- The `Events.once` method (`src/main.js` lines 91-106): validates like `subscribe`,
then subscribes the wrapper closure, whose reference is `w`.  The wrapper's
behaviour itself lives in the handler environment of the emit interpreter. -/
def Events.once (s : EventsState) (event : String) (cbIsFn : Bool) (w : Nat) :
    EventsState × Except String (String × Nat) :=
  if event ∈ s.registeredEvents then
    if cbIsFn then
      Events.subscribe s event w true
    else (s, .error "Callback must be a function")
  else (s, .error (notRegisteredMsg event))

/-- The `Events.clear` method (`src/main.js` lines 151-155). -/
def Events.clear (s : EventsState) (event : String) : EventsState :=
  match mapGet s.events event with
  | none => s
  | some _ => { s with events := mapSet s.events event [] }

/-- The `Events.reset` method (`src/main.js` lines 161-164). -/
def Events.reset (_s : EventsState) : EventsState :=
  ⟨[], []⟩

/-- An action a handler body can perform against the bus.  `emitAct` is a
fully awaited re-entrant `emit`; `callAct` is an awaited invocation of
another function (as the `once` wrapper does with its wrapped callback);
`throwAct` raises, aborting the rest of the handler's body. -/
inductive HAct where
  | subAct (event : String) (h : Nat)
  | unsubAct (event : String) (h : Nat)
  | emitAct (event : String) (args : List Val)
  | callAct (h : Nat)
  | throwAct (msg : String)
deriving DecidableEq, Repr

/-- A handler's body: the part that runs synchronously when it is invoked,
and the part that runs after it suspends (empty for a synchronous handler). -/
structure HandlerCode where
  sync : List HAct
  async : List HAct
deriving DecidableEq, Repr

/-- Assigns to each handler reference its body. -/
abbrev HandlerEnv := Nat → HandlerCode

/-- Events observed during an emission.  `start`/`finish` bracket one
handler invocation, `diag` is the `console.error` report for a caught
handler failure (tagged with the event name), `resume` marks an
asynchronous handler's continuation running after the synchronous fan-out,
and `nested` wraps all activity happening inside a handler's own body
(re-entrant emissions and awaited calls). -/
inductive TraceEv where
  | start (h : Nat) (args : List Val)
  | finish (h : Nat) (ok : Bool)
  | diag (event : String)
  | resume (h : Nat)
  | nested (tr : List TraceEv)

/-- Run a list of handler actions against the state.  `doEmit`/`doCall` are
the (fuel-limited) interpretations of re-entrant emission and awaited call.
Returns the final state, the trace of nested activity, and whether the
body completed without throwing; an uncaught throw skips the rest. -/
def runActsWith
    (doEmit : EventsState → String → List Val → Option (EventsState × List TraceEv))
    (doCall : EventsState → Nat → List Val → Option (EventsState × List TraceEv × Bool)) :
    EventsState → List Val → List HAct → Option (EventsState × List TraceEv × Bool)
  | s, _, [] => some (s, [], true)
  | s, args, HAct.subAct e h :: rest =>
      match Events.subscribe s e h true with
      | (s', Except.ok _) => runActsWith doEmit doCall s' args rest
      | (s', Except.error _) => some (s', [], false)
  | s, args, HAct.unsubAct e h :: rest =>
      runActsWith doEmit doCall (Events.unsubscribe s e h) args rest
  | s, args, HAct.emitAct e a :: rest =>
      match doEmit s e a with
      | none => none
      | some (s', trE) =>
          match runActsWith doEmit doCall s' args rest with
          | none => none
          | some (s'', tr, ok) => some (s'', TraceEv.nested trE :: tr, ok)
  | s, args, HAct.callAct h :: rest =>
      match doCall s h args with
      | none => none
      | some (s', trC, okC) =>
          if okC then
            match runActsWith doEmit doCall s' args rest with
            | none => none
            | some (s'', tr, ok) => some (s'', TraceEv.nested trC :: tr, ok)
          else some (s', [TraceEv.nested trC], false)
  | s, _, HAct.throwAct _ :: _ => some (s, [], false)

/-- One awaited invocation of handler `h` with `args`: run its synchronous
part, then (unless it threw) its asynchronous part; the caller observes the
start/finish bracket and whether the invocation succeeded. -/
def callWith (env : HandlerEnv)
    (doEmit : EventsState → String → List Val → Option (EventsState × List TraceEv))
    (doCall : EventsState → Nat → List Val → Option (EventsState × List TraceEv × Bool))
    (s : EventsState) (h : Nat) (args : List Val) :
    Option (EventsState × List TraceEv × Bool) :=
  match runActsWith doEmit doCall s args (env h).sync with
  | none => none
  | some (s1, tr1, ok1) =>
      if ok1 then
        match runActsWith doEmit doCall s1 args (env h).async with
        | none => none
        | some (s2, tr2, ok2) =>
            some (s2, TraceEv.start h args :: (tr1 ++ tr2 ++ [TraceEv.finish h ok2]), ok2)
      else
        some (s1, TraceEv.start h args :: (tr1 ++ [TraceEv.finish h false]), false)

/-- The per-handler trace segment of the synchronous fan-out phase: a
handler that completes synchronously finishes (with a diagnostic if it
threw); one with an asynchronous part is left pending. -/
def phaseASeg (event : String) (args : List Val) (h : Nat) (trH : List TraceEv) :
    Bool → List HAct → List TraceEv
  | true, [] => TraceEv.start h args :: (trH ++ [TraceEv.finish h true])
  | true, _ :: _ => TraceEv.start h args :: trH
  | false, _ => TraceEv.start h args :: (trH ++ [TraceEv.diag event, TraceEv.finish h false])

/-- The pending-handler contribution of one synchronous fan-out step. -/
def phaseAPend (h : Nat) : Bool → List HAct → List Nat
  | true, [] => []
  | true, _ :: _ => [h]
  | false, _ => []

/-- Synchronous fan-out over the snapshot (`subscribers.map(async cb => …)`
in `src/main.js` lines 136-144): every snapshot handler is started, its
synchronous part runs, and handlers with asynchronous parts are collected
as pending. -/
def phaseAWith (env : HandlerEnv)
    (doEmit : EventsState → String → List Val → Option (EventsState × List TraceEv))
    (doCall : EventsState → Nat → List Val → Option (EventsState × List TraceEv × Bool))
    (event : String) (args : List Val) :
    EventsState → List Nat → Option (EventsState × List TraceEv × List Nat)
  | s, [] => some (s, [], [])
  | s, h :: rest =>
      match runActsWith doEmit doCall s args (env h).sync with
      | none => none
      | some (s1, trH, ok) =>
          match phaseAWith env doEmit doCall event args s1 rest with
          | none => none
          | some (s2, trR, pendR) =>
              some (s2, phaseASeg event args h trH ok (env h).async ++ trR,
                phaseAPend h ok (env h).async ++ pendR)

/-- The per-handler trace segment of the completion phase. -/
def phaseBSeg (event : String) (h : Nat) (trH : List TraceEv) : Bool → List TraceEv
  | true => TraceEv.resume h :: (trH ++ [TraceEv.finish h true])
  | false => TraceEv.resume h :: (trH ++ [TraceEv.diag event, TraceEv.finish h false])

/-- Completion phase (`await Promise.all(promises)`): each pending handler
resumes, runs its asynchronous part, and finishes, failures being caught
and reported at the handler boundary. -/
def phaseBWith (env : HandlerEnv)
    (doEmit : EventsState → String → List Val → Option (EventsState × List TraceEv))
    (doCall : EventsState → Nat → List Val → Option (EventsState × List TraceEv × Bool))
    (event : String) (args : List Val) :
    EventsState → List Nat → Option (EventsState × List TraceEv)
  | s, [] => some (s, [])
  | s, h :: rest =>
      match runActsWith doEmit doCall s args (env h).async with
      | none => none
      | some (s1, trH, ok) =>
          match phaseBWith env doEmit doCall event args s1 rest with
          | none => none
          | some (s2, trR) => some (s2, phaseBSeg event h trH ok ++ trR)

/-- The `Events.emit` method (`src/main.js` lines 128-145), given interpretations of
re-entrant emits and calls: no entry for the event means an immediate
no-op; otherwise the current subscriber set is snapshotted and dispatched
in two phases. -/
def emitWith (env : HandlerEnv)
    (doEmit : EventsState → String → List Val → Option (EventsState × List TraceEv))
    (doCall : EventsState → Nat → List Val → Option (EventsState × List TraceEv × Bool))
    (s : EventsState) (event : String) (args : List Val) :
    Option (EventsState × List TraceEv) :=
  match mapGet s.events event with
  | none => some (s, [])
  | some subs =>
      match phaseAWith env doEmit doCall event args s subs with
      | none => none
      | some (s1, trA, pend) =>
          match phaseBWith env doEmit doCall event args s1 pend with
          | none => none
          | some (s2, trB) => some (s2, trA ++ trB)

/-- The fuel-indexed pair of interpretations used for re-entrant activity. -/
structure Interp where
  doEmit : EventsState → String → List Val → Option (EventsState × List TraceEv)
  doCall : EventsState → Nat → List Val → Option (EventsState × List TraceEv × Bool)

/-- Ties the knot: at each fuel level, re-entrant emits and calls are
interpreted at the previous level; fuel 0 interprets nothing. -/
def interp (env : HandlerEnv) : Nat → Interp
  | 0 => ⟨fun _ _ _ => none, fun _ _ _ => none⟩
  | n + 1 =>
      ⟨emitWith env (interp env n).doEmit (interp env n).doCall,
       callWith env (interp env n).doEmit (interp env n).doCall⟩

/-- The embedded `Events.emit`: dispatch `event` with `args` from state `s`
under handler environment `env`, with enough `fuel` for all re-entrancy. -/
def emitModel (env : HandlerEnv) (fuel : Nat)
    (s : EventsState) (event : String) (args : List Val) :
    Option (EventsState × List TraceEv) :=
  (interp env fuel).doEmit s event args

/-- The dispatch-level handler starts of a trace (nested activity excluded). -/
def topStarts : List TraceEv → List (Nat × List Val)
  | [] => []
  | TraceEv.start h a :: t => (h, a) :: topStarts t
  | _ :: t => topStarts t

/-- The dispatch-level handler completions of a trace. -/
def topFinishes : List TraceEv → List (Nat × Bool)
  | [] => []
  | TraceEv.finish h ok :: t => (h, ok) :: topFinishes t
  | _ :: t => topFinishes t

/-- The dispatch-level diagnostic reports of a trace. -/
def topDiags : List TraceEv → List String
  | [] => []
  | TraceEv.diag e :: t => e :: topDiags t
  | _ :: t => topDiags t

/-- The dispatch-level resumptions of a trace. -/
def topResumes : List TraceEv → List Nat
  | [] => []
  | TraceEv.resume h :: t => h :: topResumes t
  | _ :: t => topResumes t

/-- Whether a trace event is a handler start. -/
def TraceEv.isStart : TraceEv → Bool
  | .start _ _ => true
  | _ => false

/-- Whether a trace event is a resumption. -/
def TraceEv.isResume : TraceEv → Bool
  | .resume _ => true
  | _ => false

/-- How many times handler `g` is started anywhere in the trace, nested
activity included. -/
def countStarts (g : Nat) : List TraceEv → Nat
  | [] => 0
  | TraceEv.start h _ :: t => (if h = g then 1 else 0) + countStarts g t
  | TraceEv.nested tr :: t => countStarts g tr + countStarts g t
  | _ :: t => countStarts g t

/-- A trace consisting solely of nested activity (what a handler body
contributes at the dispatch level). -/
def allNested (tr : List TraceEv) : Prop :=
  ∀ ev ∈ tr, ∃ t, ev = TraceEv.nested t

theorem topStarts_append (a b : List TraceEv) :
    topStarts (a ++ b) = topStarts a ++ topStarts b := by
  induction a with
  | nil => rfl
  | cons ev t ih => cases ev <;> simp [topStarts, ih]

theorem topFinishes_append (a b : List TraceEv) :
    topFinishes (a ++ b) = topFinishes a ++ topFinishes b := by
  induction a with
  | nil => rfl
  | cons ev t ih => cases ev <;> simp [topFinishes, ih]

theorem topDiags_append (a b : List TraceEv) :
    topDiags (a ++ b) = topDiags a ++ topDiags b := by
  induction a with
  | nil => rfl
  | cons ev t ih => cases ev <;> simp [topDiags, ih]

theorem topResumes_append (a b : List TraceEv) :
    topResumes (a ++ b) = topResumes a ++ topResumes b := by
  induction a with
  | nil => rfl
  | cons ev t ih => cases ev <;> simp [topResumes, ih]

theorem countStarts_append (g : Nat) (a b : List TraceEv) :
    countStarts g (a ++ b) = countStarts g a + countStarts g b := by
  induction a with
  | nil => simp [countStarts]
  | cons ev t ih => cases ev <;> simp [countStarts, ih] <;> omega

theorem allNested_topStarts {tr : List TraceEv} (h : allNested tr) :
    topStarts tr = [] := by
  induction tr with
  | nil => rfl
  | cons ev t ih =>
      obtain ⟨u, hu⟩ := h ev (List.mem_cons_self _ _)
      subst hu
      exact ih fun e he => h e (List.mem_cons_of_mem _ he)

theorem allNested_topFinishes {tr : List TraceEv} (h : allNested tr) :
    topFinishes tr = [] := by
  induction tr with
  | nil => rfl
  | cons ev t ih =>
      obtain ⟨u, hu⟩ := h ev (List.mem_cons_self _ _)
      subst hu
      exact ih fun e he => h e (List.mem_cons_of_mem _ he)

theorem allNested_topDiags {tr : List TraceEv} (h : allNested tr) :
    topDiags tr = [] := by
  induction tr with
  | nil => rfl
  | cons ev t ih =>
      obtain ⟨u, hu⟩ := h ev (List.mem_cons_self _ _)
      subst hu
      exact ih fun e he => h e (List.mem_cons_of_mem _ he)

theorem allNested_topResumes {tr : List TraceEv} (h : allNested tr) :
    topResumes tr = [] := by
  induction tr with
  | nil => rfl
  | cons ev t ih =>
      obtain ⟨u, hu⟩ := h ev (List.mem_cons_self _ _)
      subst hu
      exact ih fun e he => h e (List.mem_cons_of_mem _ he)

/-- A handler body's trace is entirely nested activity. -/
theorem runActsWith_allNested
    (doEmit : EventsState → String → List Val → Option (EventsState × List TraceEv))
    (doCall : EventsState → Nat → List Val → Option (EventsState × List TraceEv × Bool))
    (acts : List HAct) :
    ∀ s args s' tr ok,
      runActsWith doEmit doCall s args acts = some (s', tr, ok) → allNested tr := by
  induction acts with
  | nil =>
      intro s args s' tr ok h
      simp [runActsWith] at h
      obtain ⟨-, h2, -⟩ := h
      subst h2
      intro ev hev
      simp at hev
  | cons a rest ih =>
      intro s args s' tr ok h
      cases a with
      | subAct e g =>
          rw [runActsWith] at h
          split at h
          · exact ih _ _ _ _ _ h
          · simp at h
            obtain ⟨-, h2, -⟩ := h
            subst h2
            intro ev hev
            simp at hev
      | unsubAct e g =>
          rw [runActsWith] at h
          exact ih _ _ _ _ _ h
      | emitAct e a' =>
          rw [runActsWith] at h
          split at h
          · exact absurd h (by simp)
          · next s0 trE hde =>
              split at h
              · exact absurd h (by simp)
              · next s1 tr1 ok1 hr =>
                  simp at h
                  obtain ⟨-, h2, -⟩ := h
                  subst h2
                  intro ev hev
                  rcases List.mem_cons.1 hev with h3 | h3
                  · exact ⟨trE, h3⟩
                  · exact ih _ _ _ _ _ hr ev h3
      | callAct g =>
          rw [runActsWith] at h
          split at h
          · exact absurd h (by simp)
          · next s0 trC okC hdc =>
              split at h
              · split at h
                · exact absurd h (by simp)
                · next s1 tr1 ok1 hr =>
                    simp at h
                    obtain ⟨-, h2, -⟩ := h
                    subst h2
                    intro ev hev
                    rcases List.mem_cons.1 hev with h3 | h3
                    · exact ⟨trC, h3⟩
                    · exact ih _ _ _ _ _ hr ev h3
              · simp at h
                obtain ⟨-, h2, -⟩ := h
                subst h2
                intro ev hev
                simp at hev
                exact ⟨trC, hev⟩
      | throwAct m =>
          simp [runActsWith] at h
          obtain ⟨-, h2, -⟩ := h
          subst h2
          intro ev hev
          simp at hev

theorem topStarts_empty_no_start {tr : List TraceEv} (h : topStarts tr = []) :
    ∀ ev ∈ tr, ev.isStart = false := by
  induction tr with
  | nil => intro ev hev; simp at hev
  | cons e t ih =>
      intro ev hev
      cases e <;> simp [topStarts] at h <;>
        rcases List.mem_cons.1 hev with h2 | h2 <;>
          first
            | (subst h2; simp [TraceEv.isStart])
            | exact ih h ev h2

theorem topResumes_empty_no_resume {tr : List TraceEv} (h : topResumes tr = []) :
    ∀ ev ∈ tr, ev.isResume = false := by
  induction tr with
  | nil => intro ev hev; simp at hev
  | cons e t ih =>
      intro ev hev
      cases e <;> simp [topResumes] at h <;>
        rcases List.mem_cons.1 hev with h2 | h2 <;>
          first
            | (subst h2; simp [TraceEv.isResume])
            | exact ih h ev h2

/-- What the synchronous fan-out phase guarantees: every snapshot handler is
started exactly once (in snapshot order) with the emission's arguments, no
resumption happens, every diagnostic is tagged with the event name, the
handlers finished in this phase together with the pending ones are exactly
the snapshot, and failed completions match diagnostics one for one. -/
theorem phaseAWith_spec (env : HandlerEnv)
    (doEmit : EventsState → String → List Val → Option (EventsState × List TraceEv))
    (doCall : EventsState → Nat → List Val → Option (EventsState × List TraceEv × Bool))
    (event : String) (args : List Val) (hs : List Nat) :
    ∀ s s1 trA pend,
      phaseAWith env doEmit doCall event args s hs = some (s1, trA, pend) →
      topStarts trA = hs.map (fun h => (h, args)) ∧
      topResumes trA = [] ∧
      (∀ d ∈ topDiags trA, d = event) ∧
      ((topFinishes trA).map Prod.fst ++ pend).Perm hs ∧
      (topDiags trA).length = (topFinishes trA).countP (fun p => !p.2) := by
  induction hs with
  | nil =>
      intro s s1 trA pend hp
      simp [phaseAWith] at hp
      obtain ⟨-, h2, h3⟩ := hp
      subst h2; subst h3
      simp [topStarts, topResumes, topDiags, topFinishes]
  | cons h hs ih =>
      intro s s1 trA pend hp
      rw [phaseAWith] at hp
      split at hp
      · exact absurd hp (by simp)
      · next s0 trH ok hr =>
          split at hp
          · exact absurd hp (by simp)
          · next s2 trR pendR hrec =>
              simp at hp
              obtain ⟨-, hTr, hPend⟩ := hp
              subst hTr; subst hPend
              have hN := runActsWith_allNested doEmit doCall (env h).sync s args s0 trH ok hr
              obtain ⟨ihS, ihR, ihD, ihP, ihC⟩ := ih s0 s2 trR pendR hrec
              have hNS := allNested_topStarts hN
              have hNR := allNested_topResumes hN
              have hND := allNested_topDiags hN
              have hNF := allNested_topFinishes hN
              cases ok with
              | false =>
                  refine ⟨?_, ?_, ?_, ?_, ?_⟩
                  · simp [phaseASeg, topStarts_append, topStarts, hNS, ihS]
                  · simp [phaseASeg, topResumes_append, topResumes, hNR, ihR]
                  · intro d hd
                    simp [phaseASeg, topDiags_append, topDiags, hND] at hd
                    rcases hd with hd | hd
                    · exact hd
                    · exact ihD d hd
                  · simp [phaseASeg, phaseAPend, topFinishes_append, topFinishes, hNF]
                    exact ihP
                  · simp [phaseASeg, phaseAPend, topDiags_append, topDiags,
                      topFinishes_append, topFinishes, hND, hNF, List.countP_cons, ihC]
              | true =>
                  rcases hA : (env h).async with - | ⟨a0, arest⟩ <;> rw [hA] at *
                  · refine ⟨?_, ?_, ?_, ?_, ?_⟩
                    · simp [phaseASeg, topStarts_append, topStarts, hNS, ihS]
                    · simp [phaseASeg, topResumes_append, topResumes, hNR, ihR]
                    · intro d hd
                      simp [phaseASeg, topDiags_append, topDiags, hND] at hd
                      exact ihD d hd
                    · simp [phaseASeg, phaseAPend, topFinishes_append, topFinishes, hNF]
                      exact ihP
                    · simp [phaseASeg, phaseAPend, topDiags_append, topDiags,
                        topFinishes_append, topFinishes, hND, hNF, List.countP_cons, ihC]
                  · refine ⟨?_, ?_, ?_, ?_, ?_⟩
                    · simp [phaseASeg, topStarts_append, topStarts, hNS, ihS]
                    · simp [phaseASeg, topResumes_append, topResumes, hNR, ihR]
                    · intro d hd
                      simp [phaseASeg, topDiags_append, topDiags, hND] at hd
                      exact ihD d hd
                    · simp [phaseASeg, phaseAPend, topFinishes_append, topFinishes, hNF]
                      exact List.perm_middle.trans (ihP.cons h)
                    · simp [phaseASeg, phaseAPend, topDiags_append, topDiags,
                        topFinishes_append, topFinishes, hND, hNF, ihC]

/-- What the completion phase guarantees: no new handler starts, each
pending handler resumes and finishes exactly once in order, diagnostics
are tagged with the event name and match failed completions one for one. -/
theorem phaseBWith_spec (env : HandlerEnv)
    (doEmit : EventsState → String → List Val → Option (EventsState × List TraceEv))
    (doCall : EventsState → Nat → List Val → Option (EventsState × List TraceEv × Bool))
    (event : String) (args : List Val) (pend : List Nat) :
    ∀ s s1 trB,
      phaseBWith env doEmit doCall event args s pend = some (s1, trB) →
      topStarts trB = [] ∧
      topResumes trB = pend ∧
      (∀ d ∈ topDiags trB, d = event) ∧
      (topFinishes trB).map Prod.fst = pend ∧
      (topDiags trB).length = (topFinishes trB).countP (fun p => !p.2) := by
  induction pend with
  | nil =>
      intro s s1 trB hp
      simp [phaseBWith] at hp
      obtain ⟨-, h2⟩ := hp
      subst h2
      simp [topStarts, topResumes, topDiags, topFinishes]
  | cons h pend ih =>
      intro s s1 trB hp
      rw [phaseBWith] at hp
      split at hp
      · exact absurd hp (by simp)
      · next s0 trH ok hr =>
          split at hp
          · exact absurd hp (by simp)
          · next s2 trR hrec =>
              simp at hp
              obtain ⟨-, hTr⟩ := hp
              subst hTr
              have hN := runActsWith_allNested doEmit doCall (env h).async s args s0 trH ok hr
              obtain ⟨ihS, ihR, ihD, ihF, ihC⟩ := ih s0 s2 trR hrec
              have hNS := allNested_topStarts hN
              have hNR := allNested_topResumes hN
              have hND := allNested_topDiags hN
              have hNF := allNested_topFinishes hN
              cases ok with
              | false =>
                  refine ⟨?_, ?_, ?_, ?_, ?_⟩
                  · simp [phaseBSeg, topStarts_append, topStarts, hNS, ihS]
                  · simp [phaseBSeg, topResumes_append, topResumes, hNR, ihR]
                  · intro d hd
                    simp [phaseBSeg, topDiags_append, topDiags, hND] at hd
                    rcases hd with hd | hd
                    · exact hd
                    · exact ihD d hd
                  · simp [phaseBSeg, topFinishes_append, topFinishes, hNF, ihF]
                  · simp [phaseBSeg, topDiags_append, topDiags,
                      topFinishes_append, topFinishes, hND, hNF, List.countP_cons, ihC]
              | true =>
                  refine ⟨?_, ?_, ?_, ?_, ?_⟩
                  · simp [phaseBSeg, topStarts_append, topStarts, hNS, ihS]
                  · simp [phaseBSeg, topResumes_append, topResumes, hNR, ihR]
                  · intro d hd
                    simp [phaseBSeg, topDiags_append, topDiags, hND] at hd
                    exact ihD d hd
                  · simp [phaseBSeg, topFinishes_append, topFinishes, hNF, ihF]
                  · simp [phaseBSeg, topDiags_append, topDiags,
                      topFinishes_append, topFinishes, hND, hNF, List.countP_cons, ihC]

/-- Combined guarantees of one complete emission with a subscriber entry:
the trace splits into a fan-out phase and a completion phase with the
listed properties.  Shared backbone for the emission claims. -/
theorem emitModel_spec (env : HandlerEnv) (fuel : Nat) (s : EventsState)
    (event : String) (args : List Val) (s' : EventsState) (tr : List TraceEv)
    (subs : List Nat)
    (hsubs : mapGet s.events event = some subs)
    (hrun : emitModel env fuel s event args = some (s', tr)) :
    ∃ trA trB pend,
      tr = trA ++ trB ∧
      topStarts trA = subs.map (fun h => (h, args)) ∧
      topStarts trB = [] ∧
      topResumes trA = [] ∧
      topResumes trB = pend ∧
      (∀ d ∈ topDiags tr, d = event) ∧
      ((topFinishes tr).map Prod.fst).Perm subs ∧
      (topDiags tr).length = (topFinishes tr).countP (fun p => !p.2) := by
  cases fuel with
  | zero => exact absurd hrun (by simp [emitModel, interp])
  | succ n =>
      rw [emitModel, interp] at hrun
      simp only [] at hrun
      rw [emitWith] at hrun
      split at hrun
      · next hnone =>
          rw [hsubs] at hnone
          exact absurd hnone (by simp)
      · next subs0 hsome =>
          rw [hsubs] at hsome
          injection hsome with hsubs0
          subst hsubs0
          split at hrun
          · exact absurd hrun (by simp)
          · next s1 trA pend hA =>
              split at hrun
              · exact absurd hrun (by simp)
              · next s2 trB hB =>
                  simp at hrun
                  obtain ⟨-, hTr⟩ := hrun
                  obtain ⟨aS, aR, aD, aP, aC⟩ :=
                    phaseAWith_spec env _ _ event args subs s s1 trA pend hA
                  obtain ⟨bS, bR, bD, bF, bC⟩ :=
                    phaseBWith_spec env _ _ event args pend s1 s2 trB hB
                  refine ⟨trA, trB, pend, hTr.symm, aS, bS, aR, bR, ?_, ?_, ?_⟩
                  · intro d hd
                    rw [← hTr, topDiags_append] at hd
                    rcases List.mem_append.1 hd with hd | hd
                    · exact aD d hd
                    · exact bD d hd
                  · rw [← hTr, topFinishes_append, List.map_append, bF]
                    exact aP
                  · rw [← hTr, topDiags_append, topFinishes_append,
                      List.length_append, List.countP_append, aC, bC]

/-- Claim C1: for every registered event and argument list, when `emit`
dispatches the call-time subscriber snapshot, every snapshot handler is
invoked exactly once with the arguments, every handler failure is caught at
that handler's boundary and reported to the diagnostic channel tagged with
the event name (one report per failed invocation, so no failure escapes to
the caller), and the emission completes only after every handler's
invocation has finished (each snapshot handler has exactly one completion
in the trace). -/
theorem emit_isolates_handler_failures (env : HandlerEnv) (fuel : Nat)
    (s : EventsState) (event : String) (args : List Val)
    (s' : EventsState) (tr : List TraceEv) (subs : List Nat)
    (hsubs : mapGet s.events event = some subs)
    (hnd : subs.Nodup)
    (hrun : emitModel env fuel s event args = some (s', tr)) :
    topStarts tr = subs.map (fun h => (h, args)) ∧
    (∀ h ∈ subs, ((topStarts tr).map Prod.fst).count h = 1) ∧
    (∀ d ∈ topDiags tr, d = event) ∧
    (topDiags tr).length = (topFinishes tr).countP (fun p => !p.2) ∧
    (∀ h ∈ subs, ((topFinishes tr).map Prod.fst).count h = 1) := by
  obtain ⟨trA, trB, pend, hTr, aS, bS, aR, bR, hD, hP, hC⟩ :=
    emitModel_spec env fuel s event args s' tr subs hsubs hrun
  have hts : topStarts tr = subs.map (fun h => (h, args)) := by
    rw [hTr, topStarts_append, aS, bS, List.append_nil]
  refine ⟨hts, ?_, hD, hC, ?_⟩
  · intro h hh
    have hmap : (topStarts tr).map Prod.fst = subs := by
      rw [hts, List.map_map]
      exact List.map_id subs
    rw [hmap]
    exact List.count_eq_one_of_mem hnd hh
  · intro h hh
    rw [hP.count_eq]
    exact List.count_eq_one_of_mem hnd hh

/-- Claim C2: the handlers invoked by an emission are exactly the
subscriber list of the event as it stood when `emit` was entered, each
invoked once with the emission's arguments and in snapshot order; any
handler that is not in that snapshot — for instance one subscribed during
the emission by a running handler — is not invoked by this emission. -/
theorem emit_dispatches_call_time_snapshot (env : HandlerEnv) (fuel : Nat)
    (s : EventsState) (event : String) (args : List Val)
    (s' : EventsState) (tr : List TraceEv) (subs : List Nat)
    (hsubs : mapGet s.events event = some subs)
    (hrun : emitModel env fuel s event args = some (s', tr)) :
    topStarts tr = subs.map (fun h => (h, args)) ∧
    (∀ h', h' ∉ subs → ∀ p ∈ topStarts tr, p.1 ≠ h') := by
  obtain ⟨trA, trB, pend, hTr, aS, bS, aR, bR, -, -, -⟩ :=
    emitModel_spec env fuel s event args s' tr subs hsubs hrun
  have hts : topStarts tr = subs.map (fun h => (h, args)) := by
    rw [hTr, topStarts_append, aS, bS, List.append_nil]
  refine ⟨hts, ?_⟩
  intro h' hnot p hp heq
  rw [hts] at hp
  obtain ⟨g, hg, hgp⟩ := List.mem_map.1 hp
  apply hnot
  rw [← heq, ← hgp]
  exact hg

/-- Claim C9: within one emission, every snapshot handler is started during
the synchronous fan-out, before any handler's asynchronous continuation is
awaited: in the emission's trace, every dispatch-level start strictly
precedes every dispatch-level resumption. -/
theorem emit_starts_all_before_awaiting_any (env : HandlerEnv) (fuel : Nat)
    (s : EventsState) (event : String) (args : List Val)
    (s' : EventsState) (tr : List TraceEv) (subs : List Nat)
    (hsubs : mapGet s.events event = some subs)
    (hrun : emitModel env fuel s event args = some (s', tr)) :
    ∀ i j (hi : i < tr.length) (hj : j < tr.length),
      (tr.get ⟨i, hi⟩).isStart = true → (tr.get ⟨j, hj⟩).isResume = true → i < j := by
  obtain ⟨trA, trB, pend, hTr, aS, bS, aR, bR, -, -, -⟩ :=
    emitModel_spec env fuel s event args s' tr subs hsubs hrun
  subst hTr
  intro i j hi hj hstart hresume
  have hBs := topStarts_empty_no_start bS
  have hAr := topResumes_empty_no_resume aR
  have hiA : i < trA.length := by
    by_contra hcon
    push_neg at hcon
    have hgb : (trA ++ trB).get ⟨i, hi⟩ = trB.get
        ⟨i - trA.length, by simp at hi; omega⟩ := by
      simp [List.get_eq_getElem]
      rw [List.getElem_append_right hcon]
    rw [hgb] at hstart
    have hmem : trB.get ⟨i - trA.length, by simp at hi; omega⟩ ∈ trB :=
      List.get_mem _ _ _
    rw [hBs _ hmem] at hstart
    exact Bool.false_ne_true hstart
  have hjA : trA.length ≤ j := by
    by_contra hcon
    push_neg at hcon
    have hga : (trA ++ trB).get ⟨j, hj⟩ = trA.get ⟨j, hcon⟩ := by
      simp [List.get_eq_getElem]
      rw [List.getElem_append_left hcon]
    rw [hga] at hresume
    have hmem : trA.get ⟨j, hcon⟩ ∈ trA := List.get_mem _ _ _
    rw [hAr _ hmem] at hresume
    exact Bool.false_ne_true hresume
  omega

/-- A concrete environment: handler 1 succeeds synchronously, handler 2
throws synchronously, handler 3 rejects asynchronously. -/
def envW : HandlerEnv := fun h =>
  if h = 1 then ⟨[], []⟩
  else if h = 2 then ⟨[HAct.throwAct "boom"], []⟩
  else if h = 3 then ⟨[], [HAct.throwAct "late"]⟩
  else ⟨[], []⟩

/-- A bus with event `"e"` registered and handlers 1, 2, 3 subscribed. -/
def stW : EventsState := ⟨[("e", [1, 2, 3])], ["e"]⟩

/-- The trace of emitting `"e"` with argument `7` on `stW` under `envW`. -/
def trW : List TraceEv :=
  [TraceEv.start 1 [7], TraceEv.finish 1 true, TraceEv.start 2 [7], TraceEv.diag "e",
   TraceEv.finish 2 false, TraceEv.start 3 [7], TraceEv.resume 3, TraceEv.diag "e",
   TraceEv.finish 3 false]

theorem emit_isolates_handler_failures_witness :
    mapGet stW.events "e" = some [1, 2, 3] ∧
    List.Nodup [1, 2, 3] ∧
    emitModel envW 2 stW "e" [7] = some (stW, trW) ∧
    (topStarts trW = [1, 2, 3].map (fun h => (h, [7])) ∧
     (∀ h ∈ [1, 2, 3], ((topStarts trW).map Prod.fst).count h = 1) ∧
     (∀ d ∈ topDiags trW, d = "e") ∧
     (topDiags trW).length = (topFinishes trW).countP (fun p => !p.2) ∧
     (∀ h ∈ [1, 2, 3], ((topFinishes trW).map Prod.fst).count h = 1)) :=
  ⟨rfl, by decide, rfl,
    emit_isolates_handler_failures envW 2 stW "e" [7] stW trW [1, 2, 3] rfl (by decide) rfl⟩

/-- An environment where handler 1 subscribes the new handler 9 to the
event being emitted, during the emission. -/
def envC2 : HandlerEnv := fun h =>
  if h = 1 then ⟨[HAct.subAct "e" 9], []⟩ else ⟨[], []⟩

/-- A bus with event `"e"` registered and handlers 1, 2 subscribed. -/
def stC2 : EventsState := ⟨[("e", [1, 2])], ["e"]⟩

/-- The state after emitting `"e"` on `stC2` under `envC2`: handler 9 was
subscribed during the emission. -/
def stC2' : EventsState := ⟨[("e", [1, 2, 9])], ["e"]⟩

/-- The trace of that emission: handler 9 is never started by it. -/
def trC2 : List TraceEv :=
  [TraceEv.start 1 [5], TraceEv.finish 1 true, TraceEv.start 2 [5], TraceEv.finish 2 true]

theorem emit_dispatches_call_time_snapshot_witness :
    mapGet stC2.events "e" = some [1, 2] ∧
    emitModel envC2 2 stC2 "e" [5] = some (stC2', trC2) ∧
    mapGet stC2'.events "e" = some [1, 2, 9] ∧
    (topStarts trC2 = [1, 2].map (fun h => (h, [5])) ∧
     (∀ h', h' ∉ [1, 2] → ∀ p ∈ topStarts trC2, p.1 ≠ h')) :=
  ⟨rfl, rfl, rfl,
    emit_dispatches_call_time_snapshot envC2 2 stC2 "e" [5] stC2' trC2 [1, 2] rfl rfl⟩

theorem emit_starts_all_before_awaiting_any_witness :
    mapGet stW.events "e" = some [1, 2, 3] ∧
    emitModel envW 2 stW "e" [7] = some (stW, trW) ∧
    (∀ i j (hi : i < trW.length) (hj : j < trW.length),
      (trW.get ⟨i, hi⟩).isStart = true → (trW.get ⟨j, hj⟩).isResume = true → i < j) :=
  ⟨rfl, rfl,
    emit_starts_all_before_awaiting_any envW 2 stW "e" [7] stW trW [1, 2, 3] rfl rfl⟩

theorem mapGet_mapSet_self (m : List (String × List Nat)) (k : String) (v : List Nat) :
    mapGet (mapSet m k v) k = some v := by
  induction m with
  | nil => simp [mapSet, mapGet]
  | cons p rest ih =>
      rcases p with ⟨k', v'⟩
      by_cases h : k' = k <;> simp [mapSet, mapGet, h, ih]

theorem mapGet_mapSet_ne (m : List (String × List Nat)) (k k' : String) (v : List Nat)
    (h : k ≠ k') : mapGet (mapSet m k v) k' = mapGet m k' := by
  induction m with
  | nil => simp [mapSet, mapGet, h]
  | cons p rest ih =>
      rcases p with ⟨k0, v0⟩
      by_cases h0 : k0 = k
      · subst h0
        simp [mapSet, mapGet, h]
      · have h' : ¬(k' = k) := fun hh => h hh.symm
        by_cases h1 : k0 = k' <;> simp [mapSet, mapGet, h0, h1, h', ih]

theorem mem_setAddStr_self (l : List String) (x : String) : x ∈ setAddStr l x := by
  by_cases h : x ∈ l <;> simp [setAddStr, h]

theorem mem_setAddStr_of_mem (l : List String) (x y : String) (h : y ∈ l) :
    y ∈ setAddStr l x := by
  by_cases hx : x ∈ l <;> simp [setAddStr, hx, h]

theorem mem_setAdd_self (l : List Nat) (x : Nat) : x ∈ setAdd l x := by
  by_cases h : x ∈ l <;> simp [setAdd, h]

/-- The `setup` operation never unregisters a name. -/
theorem setup_registry_monotone (names : List JSVal) :
    ∀ s n, n ∈ s.registeredEvents → n ∈ (Events.setup s names).1.registeredEvents := by
  induction names with
  | nil =>
      intro s n h
      simpa [Events.setup] using h
  | cons v rest ih =>
      intro s n h
      cases v with
      | str name => exact ih _ n (mem_setAddStr_of_mem _ _ _ h)
      | other => simpa [Events.setup] using h

/-- Claim C3 is false on the code: `setup(["a", 42])` throws on the
non-string element, yet the string element `"a"` that preceded it has
already been registered, so the state after the throw is not the state
before the call. -/
theorem setup_partial_mutation_cex :
    (Events.setup initialState [JSVal.str "a", JSVal.other]).2.isSome = true ∧
    "a" ∈ (Events.setup initialState [JSVal.str "a", JSVal.other]).1.registeredEvents ∧
    (Events.setup initialState [JSVal.str "a", JSVal.other]).1 ≠ initialState := by
  refine ⟨rfl, by decide, ?_⟩
  intro h
  have : "a" ∈ initialState.registeredEvents := by
    rw [← h]
    decide
  simp [initialState] at this

/-- Claim C3 amended: on an array whose first non-string element is
preceded by the (all-string) list `pre`, `setup` throws synchronously on
reaching that element, having already registered every name in `pre`
exactly as a successful `setup(pre)` would, and without processing any
later element. -/
theorem setup_registers_valid_names_before_throw (s : EventsState)
    (pre rest : List JSVal) (hpre : ∀ v ∈ pre, v.isStr = true) :
    Events.setup s (pre ++ JSVal.other :: rest) =
      ((Events.setup s pre).1, some "Event names must be strings") ∧
    (Events.setup s pre).2 = none ∧
    (∀ n, JSVal.str n ∈ pre → n ∈ (Events.setup s pre).1.registeredEvents) := by
  induction pre generalizing s with
  | nil => simp [Events.setup]
  | cons v pre ih =>
      cases v with
      | str name =>
          obtain ⟨ih1, ih2, ih3⟩ :=
            ih _ fun v hv => hpre v (List.mem_cons_of_mem _ hv)
          refine ⟨?_, ?_, ?_⟩
          · rw [List.cons_append, Events.setup, ih1, Events.setup]
          · rw [Events.setup, ih2]
          · intro n hn
            rcases List.mem_cons.1 hn with hn | hn
            · injection hn with hn
              subst hn
              rw [Events.setup]
              exact setup_registry_monotone pre _ n (mem_setAddStr_self _ _)
            · rw [Events.setup]
              exact ih3 n hn
      | other =>
          have := hpre JSVal.other (List.mem_cons_self _ _)
          simp [JSVal.isStr] at this

theorem setup_registers_valid_names_before_throw_witness :
    (∀ v ∈ [JSVal.str "a", JSVal.str "b"], v.isStr = true) ∧
    (Events.setup initialState
        ([JSVal.str "a", JSVal.str "b"] ++ JSVal.other :: [JSVal.str "c"]) =
      ((Events.setup initialState [JSVal.str "a", JSVal.str "b"]).1,
        some "Event names must be strings") ∧
     (Events.setup initialState [JSVal.str "a", JSVal.str "b"]).2 = none ∧
     (∀ n, JSVal.str n ∈ [JSVal.str "a", JSVal.str "b"] →
        n ∈ (Events.setup initialState [JSVal.str "a", JSVal.str "b"]).1.registeredEvents)) :=
  ⟨by decide,
    setup_registers_valid_names_before_throw initialState
      [JSVal.str "a", JSVal.str "b"] [JSVal.str "c"] (by decide)⟩

/-- Setting up a single name completes without throwing and both registers `x` and
ensures it has a subscriber-map entry. -/
theorem setup_single (s : EventsState) (x : String) :
    Events.setup s [JSVal.str x] =
      (⟨if mapHas s.events x then s.events else mapSet s.events x [],
        setAddStr s.registeredEvents x⟩, none) := by
  rw [Events.setup, Events.setup]

theorem setup_single_entry (s : EventsState) (x : String) :
    ∃ subs,
      mapGet (if mapHas s.events x then s.events else mapSet s.events x []) x = some subs := by
  by_cases hhas : mapHas s.events x
  · rcases hg : mapGet s.events x with - | subs
    · rw [mapHas, hg] at hhas
      simp at hhas
    · exact ⟨subs, by simp [hhas, hg]⟩
  · exact ⟨[], by simp [hhas, mapGet_mapSet_self]⟩

/-- Claim C5: for a callable handler, `subscribe(x, fn)` throws the
`NotRegistered` error exactly when `x` is not currently registered (on a
state whose registered names all have map entries, as every reachable
state does); the message names the offending event and mentions that
`setup` must precede subscription; and after `setup([x])` the identical
call succeeds and leaves `fn` subscribed to `x`. -/
theorem subscribe_gated_by_registration (s : EventsState) (x : String) (cb : Nat)
    (hkeys : ∀ n, n ∈ s.registeredEvents → mapHas s.events n = true) :
    ((Events.subscribe s x cb true).2 = Except.error (notRegisteredMsg x) ↔
      x ∉ s.registeredEvents) ∧
    (∃ a b, notRegisteredMsg x = a ++ (x ++ b)) ∧
    (∃ a b, notRegisteredMsg x = a ++ ("setup" ++ b)) ∧
    ((Events.setup s [JSVal.str x]).2 = none ∧
      ∃ s2 subs2,
        Events.subscribe (Events.setup s [JSVal.str x]).1 x cb true =
          (s2, Except.ok (x, cb)) ∧
        mapGet s2.events x = some subs2 ∧ cb ∈ subs2) := by
  obtain ⟨subs, hsubs⟩ := setup_single_entry s x
  refine ⟨⟨?_, ?_⟩, ?_, ?_, ?_, ?_⟩
  · intro herr
    by_contra hmem
    have hhas := hkeys x hmem
    rcases hg : mapGet s.events x with - | subs0
    · rw [mapHas, hg] at hhas
      simp at hhas
    · simp [Events.subscribe, hmem, hg] at herr
  · intro hnot
    simp [Events.subscribe, hnot]
  · exact ⟨"Event \"", "\" is not registered. Call setup() first.", by
      rw [notRegisteredMsg, String.append_assoc]⟩
  · exact ⟨("Event \"" ++ x) ++ "\" is not registered. Call ", "() first.", by
      rw [notRegisteredMsg, String.append_assoc ("Event \"" ++ x), String.append_assoc]
      rfl⟩
  · rw [setup_single]
  · rw [setup_single]
    exact ⟨⟨mapSet (if mapHas s.events x then s.events else mapSet s.events x []) x
        (setAdd subs cb), setAddStr s.registeredEvents x⟩, setAdd subs cb,
      by simp [Events.subscribe, mem_setAddStr_self s.registeredEvents x, hsubs],
      mapGet_mapSet_self _ _ _, mem_setAdd_self _ _⟩

theorem subscribe_gated_by_registration_witness :
    (∀ n, n ∈ initialState.registeredEvents → mapHas initialState.events n = true) ∧
    (((Events.subscribe initialState "x" 5 true).2 =
        Except.error (notRegisteredMsg "x") ↔ "x" ∉ initialState.registeredEvents) ∧
     (∃ a b, notRegisteredMsg "x" = a ++ ("x" ++ b)) ∧
     (∃ a b, notRegisteredMsg "x" = a ++ ("setup" ++ b)) ∧
     ((Events.setup initialState [JSVal.str "x"]).2 = none ∧
      ∃ s2 subs2,
        Events.subscribe (Events.setup initialState [JSVal.str "x"]).1 "x" 5 true =
          (s2, Except.ok ("x", 5)) ∧
        mapGet s2.events "x" = some subs2 ∧ 5 ∈ subs2)) :=
  ⟨by intro n hn; simp [initialState] at hn,
    subscribe_gated_by_registration initialState "x" 5
      (by intro n hn; simp [initialState] at hn)⟩

theorem setAdd_of_mem {l : List Nat} {x : Nat} (h : x ∈ l) : setAdd l x = l := by
  simp [setAdd, h]

theorem mapSet_mapSet (m : List (String × List Nat)) (k : String) (v v' : List Nat) :
    mapSet (mapSet m k v) k v' = mapSet m k v' := by
  induction m with
  | nil => simp [mapSet]
  | cons p rest ih =>
      rcases p with ⟨k0, v0⟩
      by_cases h : k0 = k <;> simp [mapSet, h, ih]

theorem count_setAdd_self (l : List Nat) (x : Nat) (hnd : l.Nodup) :
    (setAdd l x).count x = 1 := by
  by_cases h : x ∈ l
  · rw [setAdd_of_mem h]
    exact List.count_eq_one_of_mem hnd h
  · rw [setAdd, if_neg h, List.count_append]
    rw [List.count_eq_zero_of_not_mem h]
    simp

/-- Claim C6: `clear(e)` never throws (it is a total function); with no
entry for `e` it is the identity; otherwise it empties the subscriber
set while leaving the registry and every other event's subscribers
untouched, and a subsequent `subscribe(e, fn)` succeeds without a new
`setup` call. -/
theorem clear_empties_subscribers_only (s : EventsState) (e : String) :
    (Events.clear s e).registeredEvents = s.registeredEvents ∧
    (mapGet s.events e = none → Events.clear s e = s) ∧
    (∀ e', e' ≠ e → mapGet (Events.clear s e).events e' = mapGet s.events e') ∧
    (∀ subs, mapGet s.events e = some subs → mapGet (Events.clear s e).events e = some []) ∧
    (e ∈ s.registeredEvents → ∀ subs, mapGet s.events e = some subs → ∀ cb,
      ∃ s2, Events.subscribe (Events.clear s e) e cb true = (s2, Except.ok (e, cb)) ∧
        mapGet s2.events e = some [cb]) := by
  refine ⟨?_, ?_, ?_, ?_, ?_⟩
  · cases hg : mapGet s.events e with
    | none => simp [Events.clear, hg]
    | some subs => simp [Events.clear, hg]
  · intro hg
    simp [Events.clear, hg]
  · intro e' hne
    cases hg : mapGet s.events e with
    | none => simp [Events.clear, hg]
    | some subs =>
        simp [Events.clear, hg]
        exact mapGet_mapSet_ne _ _ _ _ fun hh => hne hh.symm
  · intro subs hg
    simp [Events.clear, hg, mapGet_mapSet_self]
  · intro hmem subs hg cb
    have hclear : (Events.clear s e).events = mapSet s.events e [] := by
      simp [Events.clear, hg]
    have hreg : (Events.clear s e).registeredEvents = s.registeredEvents := by
      simp [Events.clear, hg]
    refine ⟨⟨mapSet (Events.clear s e).events e [cb], s.registeredEvents⟩, ?_, ?_⟩
    · have hget : mapGet (Events.clear s e).events e = some [] := by
        rw [hclear]
        exact mapGet_mapSet_self _ _ _
      simp [Events.subscribe, hreg, hmem, hget, setAdd]
    · exact mapGet_mapSet_self _ _ _

theorem clear_empties_subscribers_only_witness :
    mapGet stW.events "e" = some [1, 2, 3] ∧
    "e" ∈ stW.registeredEvents ∧
    ((Events.clear stW "e").registeredEvents = stW.registeredEvents ∧
     (mapGet stW.events "e" = none → Events.clear stW "e" = stW) ∧
     (∀ e', e' ≠ "e" → mapGet (Events.clear stW "e").events e' = mapGet stW.events e') ∧
     (∀ subs, mapGet stW.events "e" = some subs →
        mapGet (Events.clear stW "e").events "e" = some []) ∧
     ("e" ∈ stW.registeredEvents → ∀ subs, mapGet stW.events "e" = some subs → ∀ cb,
        ∃ s2, Events.subscribe (Events.clear stW "e") "e" cb true = (s2, Except.ok ("e", cb)) ∧
          mapGet s2.events "e" = some [cb])) :=
  ⟨rfl, by decide, clear_empties_subscribers_only stW "e"⟩

/-- Claim C7: subscribing the identical handler reference twice leaves the
bus state identical to subscribing it once, and a subsequent emission of
the event invokes that handler exactly once. -/
theorem subscribe_idempotent (env : HandlerEnv) (fuel : Nat) (s : EventsState)
    (e : String) (cb : Nat) (args : List Val) (subs : List Nat)
    (hmem : e ∈ s.registeredEvents)
    (hsubs : mapGet s.events e = some subs)
    (hnd : subs.Nodup) :
    (Events.subscribe (Events.subscribe s e cb true).1 e cb true).1 =
      (Events.subscribe s e cb true).1 ∧
    (∀ s' tr, emitModel env fuel (Events.subscribe s e cb true).1 e args = some (s', tr) →
      ((topStarts tr).map Prod.fst).count cb = 1) := by
  have hs1 : (Events.subscribe s e cb true).1 =
      ⟨mapSet s.events e (setAdd subs cb), s.registeredEvents⟩ := by
    simp [Events.subscribe, hmem, hsubs]
  have hget1 : mapGet (Events.subscribe s e cb true).1.events e = some (setAdd subs cb) := by
    rw [hs1]
    exact mapGet_mapSet_self _ _ _
  constructor
  · rw [hs1]
    have hget : mapGet (mapSet s.events e (setAdd subs cb)) e = some (setAdd subs cb) :=
      mapGet_mapSet_self _ _ _
    simp [Events.subscribe, hmem, hget, setAdd_of_mem (mem_setAdd_self subs cb), mapSet_mapSet]
  · intro s' tr hrun
    obtain ⟨trA, trB, pend, hTr, aS, bS, aR, bR, -, -, -⟩ :=
      emitModel_spec env fuel _ e args s' tr (setAdd subs cb) hget1 hrun
    have hts : topStarts tr = (setAdd subs cb).map (fun h => (h, args)) := by
      rw [hTr, topStarts_append, aS, bS, List.append_nil]
    have hmap : (topStarts tr).map Prod.fst = setAdd subs cb := by
      rw [hts, List.map_map]
      exact List.map_id _
    rw [hmap]
    exact count_setAdd_self subs cb hnd

/-- The trivial handler environment: every handler does nothing. -/
def envTriv : HandlerEnv := fun _ => ⟨[], []⟩

/-- A bus with `"e"` registered and only handler 1 subscribed. -/
def stC7 : EventsState := ⟨[("e", [1])], ["e"]⟩

theorem subscribe_idempotent_witness :
    "e" ∈ stC7.registeredEvents ∧
    mapGet stC7.events "e" = some [1] ∧
    List.Nodup [1] ∧
    ((Events.subscribe (Events.subscribe stC7 "e" 2 true).1 "e" 2 true).1 =
      (Events.subscribe stC7 "e" 2 true).1 ∧
     (∀ s' tr, emitModel envTriv 1 (Events.subscribe stC7 "e" 2 true).1 "e" [6] =
        some (s', tr) → ((topStarts tr).map Prod.fst).count 2 = 1)) :=
  ⟨by decide, rfl, by decide,
    subscribe_idempotent envTriv 1 stC7 "e" 2 [6] [1] (by decide) rfl (by decide)⟩

/-- Claim C8: `reset()` never throws (it is total) and empties both the
registry and the subscriber map; afterwards every `subscribe` fails with
the `NotRegistered` error (until a new `setup`), and every previously
issued unsubscribe token — any `(event, handler)` pair — is a harmless
no-op that neither throws nor changes the state. -/
theorem reset_clears_everything (s : EventsState) :
    Events.reset s = initialState ∧
    (Events.reset s).events = [] ∧
    (Events.reset s).registeredEvents = [] ∧
    (∀ e cb, Events.unsubscribe (Events.reset s) e cb = Events.reset s) ∧
    (∀ e cb, Events.subscribe (Events.reset s) e cb true =
      (Events.reset s, Except.error (notRegisteredMsg e))) := by
  refine ⟨rfl, rfl, rfl, fun e cb => rfl, fun e cb => ?_⟩
  simp [Events.subscribe, Events.reset]

/-- Two states with the same subscriber-map keys and the same registry:
everything `emit`-time handler activity can change is confined to the
values of existing subscriber sets. -/
def Frame (s s' : EventsState) : Prop :=
  (∀ n, mapHas s'.events n = mapHas s.events n) ∧
  s'.registeredEvents = s.registeredEvents

theorem frame_refl (s : EventsState) : Frame s s := ⟨fun _ => rfl, rfl⟩

theorem frame_trans {s t u : EventsState} (h1 : Frame s t) (h2 : Frame t u) : Frame s u :=
  ⟨fun n => (h2.1 n).trans (h1.1 n), h2.2.trans h1.2⟩

theorem mapHas_mapSet_of_has (m : List (String × List Nat)) (k : String) (v : List Nat)
    (n : String) (h : mapHas m k = true) : mapHas (mapSet m k v) n = mapHas m n := by
  by_cases hk : k = n
  · subst hk
    rw [mapHas, mapGet_mapSet_self]
    rw [h]
    rfl
  · rw [mapHas, mapGet_mapSet_ne _ _ _ _ hk, mapHas]

theorem subscribe_frame (s : EventsState) (e : String) (cb : Nat) (fn : Bool) :
    Frame s (Events.subscribe s e cb fn).1 := by
  rw [Events.subscribe]
  by_cases hm : e ∈ s.registeredEvents
  · cases fn with
    | false => simp [hm]; exact frame_refl s
    | true =>
        cases hg : mapGet s.events e with
        | none => simp [hm, hg]; exact frame_refl s
        | some subs =>
            simp [hm, hg]
            refine ⟨?_, rfl⟩
            intro n
            exact mapHas_mapSet_of_has _ _ _ _ (by rw [mapHas, hg]; rfl)
  · simp [hm]; exact frame_refl s

theorem unsubscribe_frame (s : EventsState) (e : String) (cb : Nat) :
    Frame s (Events.unsubscribe s e cb) := by
  rw [Events.unsubscribe]
  cases hg : mapGet s.events e with
  | none => exact frame_refl s
  | some subs =>
      refine ⟨?_, rfl⟩
      intro n
      exact mapHas_mapSet_of_has _ _ _ _ (by rw [mapHas, hg]; rfl)

theorem clear_frame (s : EventsState) (e : String) :
    Frame s (Events.clear s e) := by
  rw [Events.clear]
  cases hg : mapGet s.events e with
  | none => exact frame_refl s
  | some subs =>
      refine ⟨?_, rfl⟩
      intro n
      exact mapHas_mapSet_of_has _ _ _ _ (by rw [mapHas, hg]; rfl)

/-- Handler bodies can only touch existing subscriber sets. -/
theorem runActsWith_frame
    (doEmit : EventsState → String → List Val → Option (EventsState × List TraceEv))
    (doCall : EventsState → Nat → List Val → Option (EventsState × List TraceEv × Bool))
    (hE : ∀ s e a r, doEmit s e a = some r → Frame s r.1)
    (hC : ∀ s h a r, doCall s h a = some r → Frame s r.1)
    (acts : List HAct) :
    ∀ s args s' tr ok,
      runActsWith doEmit doCall s args acts = some (s', tr, ok) → Frame s s' := by
  induction acts with
  | nil =>
      intro s args s' tr ok h
      simp [runActsWith] at h
      obtain ⟨h1, -, -⟩ := h
      subst h1
      exact frame_refl _
  | cons a rest ih =>
      intro s args s' tr ok h
      cases a with
      | subAct e g =>
          rw [runActsWith] at h
          split at h
          · next s0 v heq =>
              have hf : Frame s s0 := by
                have := subscribe_frame s e g true
                rw [heq] at this
                exact this
              exact frame_trans hf (ih _ _ _ _ _ h)
          · next s0 m heq =>
              have hf : Frame s s0 := by
                have := subscribe_frame s e g true
                rw [heq] at this
                exact this
              simp at h
              obtain ⟨h1, -, -⟩ := h
              subst h1
              exact hf
      | unsubAct e g =>
          rw [runActsWith] at h
          exact frame_trans (unsubscribe_frame s e g) (ih _ _ _ _ _ h)
      | emitAct e a' =>
          rw [runActsWith] at h
          split at h
          · exact absurd h (by simp)
          · next s0 trE hde =>
              split at h
              · exact absurd h (by simp)
              · next s1 tr1 ok1 hr =>
                  simp at h
                  obtain ⟨h1, -, -⟩ := h
                  subst h1
                  exact frame_trans (hE s e a' _ hde) (ih _ _ _ _ _ hr)
      | callAct g =>
          rw [runActsWith] at h
          split at h
          · exact absurd h (by simp)
          · next s0 trC okC hdc =>
              split at h
              · split at h
                · exact absurd h (by simp)
                · next s1 tr1 ok1 hr =>
                    simp at h
                    obtain ⟨h1, -, -⟩ := h
                    subst h1
                    exact frame_trans (hC s g args _ hdc) (ih _ _ _ _ _ hr)
              · simp at h
                obtain ⟨h1, -, -⟩ := h
                subst h1
                exact hC s g args _ hdc
      | throwAct m =>
          simp [runActsWith] at h
          obtain ⟨h1, -, -⟩ := h
          subst h1
          exact frame_refl _

theorem callWith_frame (env : HandlerEnv)
    (doEmit : EventsState → String → List Val → Option (EventsState × List TraceEv))
    (doCall : EventsState → Nat → List Val → Option (EventsState × List TraceEv × Bool))
    (hE : ∀ s e a r, doEmit s e a = some r → Frame s r.1)
    (hC : ∀ s h a r, doCall s h a = some r → Frame s r.1) :
    ∀ s h args r, callWith env doEmit doCall s h args = some r → Frame s r.1 := by
  intro s h args r hcall
  rw [callWith] at hcall
  split at hcall
  · exact absurd hcall (by simp)
  · next s1 tr1 ok1 h1 =>
      have hf1 := runActsWith_frame doEmit doCall hE hC _ _ _ _ _ _ h1
      split at hcall
      · split at hcall
        · exact absurd hcall (by simp)
        · next s2 tr2 ok2 h2 =>
            have hf2 := runActsWith_frame doEmit doCall hE hC _ _ _ _ _ _ h2
            simp at hcall
            rw [← hcall]
            exact frame_trans hf1 hf2
      · simp at hcall
        rw [← hcall]
        exact hf1

theorem phaseAWith_frame (env : HandlerEnv)
    (doEmit : EventsState → String → List Val → Option (EventsState × List TraceEv))
    (doCall : EventsState → Nat → List Val → Option (EventsState × List TraceEv × Bool))
    (hE : ∀ s e a r, doEmit s e a = some r → Frame s r.1)
    (hC : ∀ s h a r, doCall s h a = some r → Frame s r.1)
    (event : String) (args : List Val) (hs : List Nat) :
    ∀ s r, phaseAWith env doEmit doCall event args s hs = some r → Frame s r.1 := by
  induction hs with
  | nil =>
      intro s r h
      simp [phaseAWith] at h
      rw [← h]
      exact frame_refl s
  | cons g hs ih =>
      intro s r h
      rw [phaseAWith] at h
      split at h
      · exact absurd h (by simp)
      · next s1 trH ok h1 =>
          have hf1 := runActsWith_frame doEmit doCall hE hC _ _ _ _ _ _ h1
          split at h
          · exact absurd h (by simp)
          · next s2 trR pendR h2 =>
              have hf2 := ih s1 _ h2
              simp at h
              rw [← h]
              exact frame_trans hf1 hf2

theorem phaseBWith_frame (env : HandlerEnv)
    (doEmit : EventsState → String → List Val → Option (EventsState × List TraceEv))
    (doCall : EventsState → Nat → List Val → Option (EventsState × List TraceEv × Bool))
    (hE : ∀ s e a r, doEmit s e a = some r → Frame s r.1)
    (hC : ∀ s h a r, doCall s h a = some r → Frame s r.1)
    (event : String) (args : List Val) (pend : List Nat) :
    ∀ s r, phaseBWith env doEmit doCall event args s pend = some r → Frame s r.1 := by
  induction pend with
  | nil =>
      intro s r h
      simp [phaseBWith] at h
      rw [← h]
      exact frame_refl s
  | cons g pend ih =>
      intro s r h
      rw [phaseBWith] at h
      split at h
      · exact absurd h (by simp)
      · next s1 trH ok h1 =>
          have hf1 := runActsWith_frame doEmit doCall hE hC _ _ _ _ _ _ h1
          split at h
          · exact absurd h (by simp)
          · next s2 trR h2 =>
              have hf2 := ih s1 _ h2
              simp at h
              rw [← h]
              exact frame_trans hf1 hf2

theorem emitWith_frame (env : HandlerEnv)
    (doEmit : EventsState → String → List Val → Option (EventsState × List TraceEv))
    (doCall : EventsState → Nat → List Val → Option (EventsState × List TraceEv × Bool))
    (hE : ∀ s e a r, doEmit s e a = some r → Frame s r.1)
    (hC : ∀ s h a r, doCall s h a = some r → Frame s r.1) :
    ∀ s event args r, emitWith env doEmit doCall s event args = some r → Frame s r.1 := by
  intro s event args r h
  rw [emitWith] at h
  split at h
  · simp at h
    rw [← h]
    exact frame_refl s
  · next subs hsubs =>
      split at h
      · exact absurd h (by simp)
      · next s1 trA pend h1 =>
          have hf1 := phaseAWith_frame env doEmit doCall hE hC event args subs s _ h1
          split at h
          · exact absurd h (by simp)
          · next s2 trB h2 =>
              have hf2 := phaseBWith_frame env doEmit doCall hE hC event args pend s1 _ h2
              simp at h
              rw [← h]
              exact frame_trans hf1 hf2

/-- At every fuel level, an emission or an awaited call preserves the
subscriber-map key set and the registry. -/
theorem interp_frame (env : HandlerEnv) :
    ∀ k, (∀ s e a r, (interp env k).doEmit s e a = some r → Frame s r.1) ∧
         (∀ s h a r, (interp env k).doCall s h a = some r → Frame s r.1) := by
  intro k
  induction k with
  | zero =>
      constructor <;> intro s x a r h <;> simp [interp] at h
  | succ n ih =>
      obtain ⟨ihE, ihC⟩ := ih
      constructor
      · intro s e a r h
        rw [interp] at h
        simp only [] at h
        exact emitWith_frame env _ _ ihE ihC s e a r h
      · intro s g a r h
        rw [interp] at h
        simp only [] at h
        exact callWith_frame env _ _ ihE ihC s g a r h

/-- The C10 invariant: a name has a subscriber-map entry exactly when it is
registered. -/
def KeysInv (s : EventsState) : Prop :=
  ∀ n, mapHas s.events n = true ↔ n ∈ s.registeredEvents

theorem frame_keysInv {s s' : EventsState} (hf : Frame s s') (hk : KeysInv s) : KeysInv s' := by
  intro n
  rw [hf.1 n, hf.2]
  exact hk n

theorem mem_setAddStr_iff (l : List String) (x y : String) :
    y ∈ setAddStr l x ↔ y ∈ l ∨ y = x := by
  by_cases h : x ∈ l
  · rw [setAddStr, if_pos h]
    constructor
    · exact Or.inl
    · rintro (hy | hy)
      · exact hy
      · rw [hy]
        exact h
  · rw [setAddStr, if_neg h]
    simp

/-- The `setup` operation maintains the keys invariant: it adds a name to the registry
and ensures its map entry in the same loop iteration. -/
theorem setup_keysInv (names : List JSVal) :
    ∀ s, KeysInv s → KeysInv (Events.setup s names).1 := by
  induction names with
  | nil =>
      intro s h
      simpa [Events.setup] using h
  | cons v rest ih =>
      intro s h
      cases v with
      | other => simpa [Events.setup] using h
      | str name =>
          rw [Events.setup]
          apply ih
          intro n
          show mapHas (if mapHas s.events name then s.events else mapSet s.events name []) n
              = true ↔ n ∈ setAddStr s.registeredEvents name
          by_cases hn : n = name
          · subst hn
            constructor
            · intro
              exact mem_setAddStr_self _ _
            · intro
              by_cases hhas : mapHas s.events n
              · rw [if_pos hhas]
                exact hhas
              · rw [if_neg hhas, mapHas, mapGet_mapSet_self]
                rfl
          · have hEn : mapHas
                (if mapHas s.events name then s.events else mapSet s.events name []) n =
                mapHas s.events n := by
              by_cases hhas : mapHas s.events name
              · rw [if_pos hhas]
              · rw [if_neg hhas, mapHas,
                  mapGet_mapSet_ne _ _ _ _ fun hh => hn hh.symm, mapHas]
            rw [hEn, mem_setAddStr_iff]
            constructor
            · intro hx
              exact Or.inl ((h n).1 hx)
            · rintro (hx | hx)
              · exact (h n).2 hx
              · exact absurd hx hn

theorem once_frame (s : EventsState) (e : String) (fn : Bool) (w : Nat) :
    Frame s (Events.once s e fn w).1 := by
  rw [Events.once]
  by_cases hm : e ∈ s.registeredEvents
  · cases fn with
    | false => simp [hm]; exact frame_refl s
    | true => simp [hm]; exact subscribe_frame s e w true
  · simp [hm]; exact frame_refl s

/-- One public operation on the bus, as issued by a caller between
emissions (the handler environment and fuel interpret any emission). -/
inductive BusOp where
  | setupOp (names : List JSVal)
  | subscribeOp (event : String) (cb : Nat) (cbIsFn : Bool)
  | onceOp (event : String) (cbIsFn : Bool) (w : Nat)
  | unsubscribeOp (event : String) (cb : Nat)
  | emitOp (event : String) (args : List Val)
  | clearOp (event : String)
  | resetOp

/-- Apply one operation; the post-throw state is kept for throwing
operations, and `none` only means an emission ran out of fuel. -/
def applyOp (env : HandlerEnv) (fuel : Nat) (s : EventsState) : BusOp → Option EventsState
  | .setupOp names => some (Events.setup s names).1
  | .subscribeOp e cb fn => some (Events.subscribe s e cb fn).1
  | .onceOp e fn w => some (Events.once s e fn w).1
  | .unsubscribeOp e cb => some (Events.unsubscribe s e cb)
  | .emitOp e args => (emitModel env fuel s e args).map Prod.fst
  | .clearOp e => some (Events.clear s e)
  | .resetOp => some (Events.reset s)

/-- Run a sequence of operations from a state. -/
def runOps (env : HandlerEnv) (fuel : Nat) : EventsState → List BusOp → Option EventsState
  | s, [] => some s
  | s, op :: rest =>
      match applyOp env fuel s op with
      | none => none
      | some s' => runOps env fuel s' rest

theorem applyOp_keysInv (env : HandlerEnv) (fuel : Nat) (op : BusOp) (s s' : EventsState)
    (h : applyOp env fuel s op = some s') (hk : KeysInv s) : KeysInv s' := by
  cases op with
  | setupOp names =>
      simp [applyOp] at h
      rw [← h]
      exact setup_keysInv names s hk
  | subscribeOp e cb fn =>
      simp [applyOp] at h
      rw [← h]
      exact frame_keysInv (subscribe_frame s e cb fn) hk
  | onceOp e fn w =>
      simp [applyOp] at h
      rw [← h]
      exact frame_keysInv (once_frame s e fn w) hk
  | unsubscribeOp e cb =>
      simp [applyOp] at h
      rw [← h]
      exact frame_keysInv (unsubscribe_frame s e cb) hk
  | emitOp e args =>
      rw [applyOp] at h
      rcases hrun : emitModel env fuel s e args with - | ⟨s1, tr⟩
      · rw [hrun] at h
        exact absurd h (by simp)
      · rw [hrun] at h
        simp at h
        rw [← h]
        exact frame_keysInv ((interp_frame env fuel).1 _ _ _ _ hrun) hk
  | clearOp e =>
      simp [applyOp] at h
      rw [← h]
      exact frame_keysInv (clear_frame s e) hk
  | resetOp =>
      simp [applyOp, Events.reset] at h
      rw [← h]
      intro n
      simp [mapHas, mapGet]

/-- Claim C10: after any sequence of `setup`, `subscribe`, `once`,
`unsubscribe`, `emit`, `clear` and `reset` operations starting from the
initial empty bus, the key set of the subscriber map equals the registry in
both directions: every registered name has a (possibly empty) entry, and
no entry exists for an unregistered name. -/
theorem registry_keys_invariant (env : HandlerEnv) (fuel : Nat) (ops : List BusOp)
    (s : EventsState) (h : runOps env fuel initialState ops = some s) :
    ∀ n, mapHas s.events n = true ↔ n ∈ s.registeredEvents := by
  have init : KeysInv initialState := by
    intro n
    simp [initialState, mapHas, mapGet]
  suffices H : ∀ ops s0 sf, KeysInv s0 → runOps env fuel s0 ops = some sf → KeysInv sf by
    exact H ops initialState s init h
  intro ops
  induction ops with
  | nil =>
      intro s0 sf hk hr
      simp [runOps] at hr
      rw [← hr]
      exact hk
  | cons op rest ih =>
      intro s0 sf hk hr
      rw [runOps] at hr
      split at hr
      · exact absurd hr (by simp)
      · next s1 hop =>
          exact ih s1 sf (applyOp_keysInv env fuel op s0 s1 hop hk) hr

/-- A mixed operation sequence exercising every operation kind, including
a partially failing `setup` and an emission with a throwing handler. -/
def opsC10 : List BusOp :=
  [BusOp.setupOp [JSVal.str "e", JSVal.str "f"],
   BusOp.subscribeOp "e" 1 true,
   BusOp.onceOp "e" true 2,
   BusOp.emitOp "e" [3],
   BusOp.unsubscribeOp "e" 1,
   BusOp.clearOp "f",
   BusOp.setupOp [JSVal.str "g", JSVal.other],
   BusOp.resetOp,
   BusOp.setupOp [JSVal.str "h"]]

theorem registry_keys_invariant_witness :
    runOps envW 2 initialState opsC10 = some ⟨[("h", [])], ["h"]⟩ ∧
    (∀ n, mapHas (⟨[("h", [])], ["h"]⟩ : EventsState).events n = true ↔
      n ∈ (⟨[("h", [])], ["h"]⟩ : EventsState).registeredEvents) :=
  ⟨rfl, registry_keys_invariant envW 2 opsC10 ⟨[("h", [])], ["h"]⟩ rfl⟩

/-- The `once` wrapper's body (`src/main.js` lines 98-101), for wrapper
reference `w` wrapping callback `f` on `event`: synchronously unsubscribe
itself, then await the wrapped callback; no work after the await. -/
def onceWrapperCode (event : String) (w f : Nat) : HandlerCode :=
  ⟨[HAct.unsubAct event w, HAct.callAct f], []⟩

/-- Actions that neither subscribe a handler nor call one directly. -/
def actBenign : HAct → Bool
  | .subAct _ _ => false
  | .callAct _ => false
  | _ => true

/-- A handler body that performs no subscription and no direct call:
it may mutate, unsubscribe, re-enter `emit`, and throw. -/
def codeBenign (c : HandlerCode) : Bool :=
  c.sync.all actBenign && c.async.all actBenign

theorem setup_fresh (ev : String) :
    Events.setup initialState [JSVal.str ev] = (⟨[(ev, [])], [ev]⟩, none) := by
  simp [Events.setup, initialState, mapHas, mapGet, mapSet, setAddStr]

theorem once_fresh (ev : String) (w : Nat) :
    Events.once ⟨[(ev, [])], [ev]⟩ ev true w = (⟨[(ev, [w])], [ev]⟩, Except.ok (ev, w)) := by
  simp [Events.once, Events.subscribe, mapGet, mapSet, setAdd]

theorem unsubscribe_self_fresh (ev : String) (w : Nat) :
    Events.unsubscribe ⟨[(ev, [w])], [ev]⟩ ev w = ⟨[(ev, [])], [ev]⟩ := by
  simp [Events.unsubscribe, mapGet, setDel, mapSet]

theorem unsubscribe_clean (ev e : String) (g : Nat) :
    Events.unsubscribe ⟨[(ev, [])], [ev]⟩ e g = ⟨[(ev, [])], [ev]⟩ := by
  by_cases h : ev = e <;> simp [Events.unsubscribe, mapGet, h, setDel, mapSet]

theorem emitWith_clean (env : HandlerEnv)
    (doE : EventsState → String → List Val → Option (EventsState × List TraceEv))
    (doC : EventsState → Nat → List Val → Option (EventsState × List TraceEv × Bool))
    (ev e' : String) (a : List Val) :
    emitWith env doE doC ⟨[(ev, [])], [ev]⟩ e' a = some (⟨[(ev, [])], [ev]⟩, []) := by
  by_cases h : ev = e' <;> simp [emitWith, mapGet, h, phaseAWith, phaseBWith]

theorem interp_doEmit_clean (env : HandlerEnv) (ev : String) :
    ∀ k e' a r, (interp env k).doEmit (⟨[(ev, [])], [ev]⟩ : EventsState) e' a = some r →
      r = ((⟨[(ev, [])], [ev]⟩ : EventsState), []) := by
  intro k e' a r h
  cases k with
  | zero => simp [interp] at h
  | succ n =>
      rw [interp] at h
      simp only [] at h
      rw [emitWith_clean] at h
      exact (Option.some_injective _ h).symm

/-- Running a benign handler body on the post-removal one-event state:
the state is unchanged and no handler start appears anywhere in its trace
(its re-entrant emissions find no subscribers). -/
theorem runActsWith_clean (ev : String)
    (doE : EventsState → String → List Val → Option (EventsState × List TraceEv))
    (doC : EventsState → Nat → List Val → Option (EventsState × List TraceEv × Bool))
    (hE : ∀ e' a r, doE (⟨[(ev, [])], [ev]⟩ : EventsState) e' a = some r →
      r = ((⟨[(ev, [])], [ev]⟩ : EventsState), []))
    (acts : List HAct) (hb : acts.all actBenign = true) :
    ∀ args s' tr ok,
      runActsWith doE doC (⟨[(ev, [])], [ev]⟩ : EventsState) args acts = some (s', tr, ok) →
      s' = (⟨[(ev, [])], [ev]⟩ : EventsState) ∧ ∀ g, countStarts g tr = 0 := by
  induction acts with
  | nil =>
      intro args s' tr ok h
      simp [runActsWith] at h
      obtain ⟨h1, h2, -⟩ := h
      subst h2
      exact ⟨h1.symm, fun g => by simp [countStarts]⟩
  | cons a rest ih =>
      intro args s' tr ok h
      rw [List.all_cons, Bool.and_eq_true] at hb
      cases a with
      | subAct e g => simp [actBenign] at hb
      | callAct g => simp [actBenign] at hb
      | unsubAct e g =>
          rw [runActsWith, unsubscribe_clean] at h
          exact ih hb.2 args s' tr ok h
      | throwAct m =>
          simp [runActsWith] at h
          obtain ⟨h1, h2, -⟩ := h
          subst h2
          exact ⟨h1.symm, fun g => by simp [countStarts]⟩
      | emitAct e a' =>
          rw [runActsWith] at h
          split at h
          · exact absurd h (by simp)
          · next s0 trE hde =>
              have hr := hE e a' _ hde
              rw [Prod.ext_iff] at hr
              obtain ⟨hr1, hr2⟩ := hr
              simp only [] at hr1 hr2
              subst hr1
              split at h
              · exact absurd h (by simp)
              · next s1 tr1 ok1 hrest =>
                  obtain ⟨ih1, ih2⟩ := ih hb.2 args s1 tr1 ok1 hrest
                  simp at h
                  obtain ⟨h1, h2, -⟩ := h
                  subst h2
                  refine ⟨h1 ▸ ih1, ?_⟩
                  intro g
                  rw [countStarts, hr2]
                  simp [countStarts, ih2 g]

/-- An awaited call of a benign handler from the post-removal state: the
state is unchanged and exactly one start — the callee's own — appears in
the call's trace. -/
theorem interp_doCall_clean (env : HandlerEnv) (ev : String) (f : Nat)
    (hf : codeBenign (env f) = true) :
    ∀ k a r, (interp env k).doCall (⟨[(ev, [])], [ev]⟩ : EventsState) f a = some r →
      r.1 = (⟨[(ev, [])], [ev]⟩ : EventsState) ∧
      ∀ g, countStarts g r.2.1 = if g = f then 1 else 0 := by
  rw [codeBenign, Bool.and_eq_true] at hf
  intro k a r h
  cases k with
  | zero => simp [interp] at h
  | succ n =>
      rw [interp] at h
      simp only [] at h
      rw [callWith] at h
      split at h
      · exact absurd h (by simp)
      · next s1 tr1 ok1 h1 =>
          obtain ⟨hs1, hc1⟩ := runActsWith_clean ev _ _
            (fun e' a' r' hh => interp_doEmit_clean env ev n e' a' r' hh)
            (env f).sync hf.1 a s1 tr1 ok1 h1
          subst hs1
          split at h
          · split at h
            · exact absurd h (by simp)
            · next s2 tr2 ok2 h2 =>
                obtain ⟨hs2, hc2⟩ := runActsWith_clean ev _ _
                  (fun e' a' r' hh => interp_doEmit_clean env ev n e' a' r' hh)
                  (env f).async hf.2 a s2 tr2 ok2 h2
                simp at h
                rw [← h]
                refine ⟨hs2, ?_⟩
                intro g
                simp [countStarts, countStarts_append, hc1 g, hc2 g, eq_comm]
          · simp at h
            rw [← h]
            refine ⟨rfl, ?_⟩
            intro g
            simp [countStarts, countStarts_append, hc1 g, eq_comm]


/-- Claim C4: after `once(e, fn)` on a fresh bus with `e` set up, two
sequential fully-awaited emissions of `e` invoke the wrapped callback
exactly once in total (counting every nested invocation, so a re-entrant
emission of `e` from inside the callback triggers no second call); the
wrapper removed itself before invoking the callback, so after the first
emission the subscriber set of `e` is already empty — even if the callback
threw — and the second emission starts no handler at all.  The callback's
body is arbitrary benign code: it may mutate the bus, re-enter `emit`,
and throw, but does not subscribe handlers or call one directly. -/
theorem once_invokes_wrapped_handler_exactly_once
    (env : HandlerEnv) (ev : String) (w f : Nat)
    (fuel1 fuel2 : Nat) (args1 args2 : List Val)
    (s1 s2 s3 s4 : EventsState) (r1 : Except String (String × Nat))
    (tr1 tr2 : List TraceEv)
    (hw : env w = onceWrapperCode ev w f)
    (hf : codeBenign (env f) = true)
    (hsetup : Events.setup initialState [JSVal.str ev] = (s1, none))
    (honce : Events.once s1 ev true w = (s2, r1))
    (h1 : emitModel env fuel1 s2 ev args1 = some (s3, tr1))
    (h2 : emitModel env fuel2 s3 ev args2 = some (s4, tr2)) :
    countStarts f (tr1 ++ tr2) = 1 ∧
    countStarts w tr2 = 0 ∧
    mapGet s3.events ev = some [] ∧
    tr2 = [] := by
  have hs1 : s1 = ⟨[(ev, [])], [ev]⟩ := by
    have h := (setup_fresh ev).symm.trans hsetup
    exact ((Prod.ext_iff.1 h).1).symm
  subst hs1
  have hs2 : s2 = ⟨[(ev, [w])], [ev]⟩ := by
    have h := (once_fresh ev w).symm.trans honce
    exact ((Prod.ext_iff.1 h).1).symm
  subst hs2
  have hwf : ¬w = f := by
    intro hcontra
    rw [hcontra] at hw
    rw [hw] at hf
    simp [codeBenign, onceWrapperCode, actBenign] at hf
  have hget : mapGet (⟨[(ev, [w])], [ev]⟩ : EventsState).events ev = some [w] := by
    simp [mapGet]
  cases fuel1 with
  | zero => simp [emitModel, interp] at h1
  | succ n =>
      rcases hdc : (interp env n).doCall ⟨[(ev, [])], [ev]⟩ f args1 with - | ⟨sc, trC, okC⟩
      · have hrunN : runActsWith (interp env n).doEmit (interp env n).doCall
            (⟨[(ev, [w])], [ev]⟩ : EventsState) args1
            [HAct.unsubAct ev w, HAct.callAct f] = none := by
          rw [runActsWith, unsubscribe_self_fresh, runActsWith, hdc]
        have hnone : emitModel env (Nat.succ n) (⟨[(ev, [w])], [ev]⟩ : EventsState) ev args1 =
            none := by
          rw [emitModel, interp]
          simp only []
          rw [emitWith, hget]
          simp [phaseAWith, hw, onceWrapperCode, hrunN]
        rw [hnone] at h1
        exact absurd h1 (by simp)
      · obtain ⟨hsc, hcnt⟩ := interp_doCall_clean env ev f hf n args1 _ hdc
        simp only [] at hsc
        subst hsc
        have hrun : runActsWith (interp env n).doEmit (interp env n).doCall
            (⟨[(ev, [w])], [ev]⟩ : EventsState) args1
            [HAct.unsubAct ev w, HAct.callAct f] =
            some (⟨[(ev, [])], [ev]⟩, [TraceEv.nested trC], okC) := by
          rw [runActsWith, unsubscribe_self_fresh, runActsWith, hdc]
          cases okC <;> simp [runActsWith]
        have hpa : phaseAWith env (interp env n).doEmit (interp env n).doCall ev args1
            (⟨[(ev, [w])], [ev]⟩ : EventsState) [w] =
            some (⟨[(ev, [])], [ev]⟩,
              phaseASeg ev args1 w [TraceEv.nested trC] okC [], []) := by
          rw [phaseAWith, hw]
          simp only [onceWrapperCode]
          rw [hrun]
          cases okC <;> simp [phaseAWith, phaseASeg, phaseAPend]
        have hemit : emitModel env (Nat.succ n) (⟨[(ev, [w])], [ev]⟩ : EventsState) ev args1 =
            some (⟨[(ev, [])], [ev]⟩, phaseASeg ev args1 w [TraceEv.nested trC] okC []) := by
          rw [emitModel, interp]
          simp only []
          rw [emitWith, hget]
          simp [hpa, phaseBWith]
        rw [hemit] at h1
        simp at h1
        obtain ⟨h1s, h1t⟩ := h1
        have hcount1 : countStarts f tr1 = 1 := by
          rw [← h1t]
          cases okC <;>
            simp [phaseASeg, countStarts, countStarts_append, hcnt f, hwf]
        have hemit2 : s4 = (⟨[(ev, [])], [ev]⟩ : EventsState) ∧ tr2 = [] := by
          rw [← h1s] at h2
          cases fuel2 with
          | zero => simp [emitModel, interp] at h2
          | succ m =>
              rw [emitModel, interp] at h2
              simp only [] at h2
              rw [emitWith_clean] at h2
              simp at h2
              exact ⟨h2.1.symm, h2.2⟩
        obtain ⟨hs4, htr2⟩ := hemit2
        subst htr2
        refine ⟨?_, by simp [countStarts], ?_, rfl⟩
        · simp [countStarts_append, countStarts, hcount1]
        · rw [← h1s]
          simp [mapGet]

/-- Environment for the `once` scenario: handler 10 is the `once` wrapper
around callback 11, whose body re-enters `emit("e")` and then throws. -/
def envC4 : HandlerEnv := fun h =>
  if h = 10 then onceWrapperCode "e" 10 11
  else if h = 11 then ⟨[HAct.emitAct "e" [], HAct.throwAct "late"], []⟩
  else ⟨[], []⟩

/-- The first emission's trace in the `once` scenario. -/
def trC4 : List TraceEv :=
  [TraceEv.start 10 [1],
   TraceEv.nested [TraceEv.start 11 [1], TraceEv.nested [], TraceEv.finish 11 false],
   TraceEv.diag "e", TraceEv.finish 10 false]

theorem once_invokes_wrapped_handler_exactly_once_witness :
    envC4 10 = onceWrapperCode "e" 10 11 ∧
    codeBenign (envC4 11) = true ∧
    Events.setup initialState [JSVal.str "e"] = (⟨[("e", [])], ["e"]⟩, none) ∧
    Events.once ⟨[("e", [])], ["e"]⟩ "e" true 10 =
      (⟨[("e", [10])], ["e"]⟩, Except.ok ("e", 10)) ∧
    emitModel envC4 3 ⟨[("e", [10])], ["e"]⟩ "e" [1] =
      some (⟨[("e", [])], ["e"]⟩, trC4) ∧
    emitModel envC4 1 ⟨[("e", [])], ["e"]⟩ "e" [2] =
      some (⟨[("e", [])], ["e"]⟩, []) ∧
    (countStarts 11 (trC4 ++ []) = 1 ∧
     countStarts 10 ([] : List TraceEv) = 0 ∧
     mapGet (⟨[("e", [])], ["e"]⟩ : EventsState).events "e" = some [] ∧
     ([] : List TraceEv) = []) :=
  ⟨rfl, rfl, rfl, rfl, rfl, rfl,
    once_invokes_wrapped_handler_exactly_once envC4 "e" 10 11 3 1 [1] [2]
      ⟨[("e", [])], ["e"]⟩ ⟨[("e", [10])], ["e"]⟩ ⟨[("e", [])], ["e"]⟩ ⟨[("e", [])], ["e"]⟩
      (Except.ok ("e", 10)) trC4 [] rfl rfl rfl rfl rfl rfl⟩
